import Mathlib

/-!
Verification of the Zenalyst analytics components against their specification.

The JavaScript sources are shallowly embedded here. JS numbers are modelled by
the rationals; where a value can be `undefined` or `NaN` (missing record
fields, arithmetic on missing fields) we use `Option ℚ`, with `none` standing
for the non-numeric result. Structural properties proved below (cluster
counts, assignment partitions, sort order, cache behaviour) do not depend on
floating-point rounding, so exact rational arithmetic is a faithful stand-in.
-/

namespace Zenalyst

/-- JS semantics of `Math.max(1, x)` where `x` may be `undefined`:
`Math.max` converts its arguments with ToNumber, so a missing value becomes
`NaN` and the result is `NaN` (modelled as `none`). -/
def jsMax1 : Option ℚ → Option ℚ
  | none => none
  | some q => some (max 1 q)

/-- JS division where either operand may be non-numeric (`NaN`), modelled as
`none`. Division by zero would also be non-finite in JS; every use below has a
divisor of at least 1, and the amended claim C10 proves the zero branch is
unreachable there. -/
def jsDiv : Option ℚ → Option ℚ → Option ℚ
  | some a, some b => if b = 0 then none else some (a / b)
  | _, _ => none

/-- JS `Math.round`: round half toward positive infinity. -/
def jsRound (q : ℚ) : Int := ⌊q + 1/2⌋

/-- Raw vendor record consumed by `performSegmentation` (part_004): both
numeric fields may be absent. -/
structure VendorData where
  totalAmount : Option ℚ
  transactionCount : Option ℚ
deriving DecidableEq, Repr

/-- The line `unit_price: vendor.totalAmount / Math.max(1, vendor.transactionCount)`
(part_004 line 112). With a missing `transactionCount`, `Math.max(1, undefined)`
is `NaN`, so the quotient is `NaN` (`none`). -/
def unitPrice (v : VendorData) : Option ℚ :=
  jsDiv v.totalAmount (jsMax1 v.transactionCount)

/-- Extracted feature vector (part_004 lines 108-113). The `|| 0` defaults in
`vendor.totalAmount || 0` and `vendor.transactionCount || 0` send both a
missing value and `0` to `0`, i.e. `Option.getD 0`. The `name` field is not
carried: no verified property mentions it. -/
structure Vendor where
  total : ℚ
  unit_price : Option ℚ
  count : ℚ
deriving DecidableEq, Repr

def extractVendor (v : VendorData) : Vendor :=
  { total := v.totalAmount.getD 0
    unit_price := unitPrice v
    count := v.transactionCount.getD 0 }

/-- A centroid holds the same three features as a vendor (part_004 lines 123-127). -/
structure Centroid where
  total : ℚ
  unit_price : Option ℚ
  count : ℚ
deriving DecidableEq, Repr

def defaultCentroid : Centroid := { total := 0, unit_price := none, count := 0 }

def toCentroid (v : Vendor) : Centroid :=
  { total := v.total, unit_price := v.unit_price, count := v.count }

/-- Squared Euclidean distance of part_004 lines 141-145. The source compares
`Math.sqrt` of this quantity; since the square root is strictly monotone on
the non-negative reals, comparing squared distances selects the same nearest
centroid, so the embedding drops the `sqrt`. A `NaN` feature (missing
`unit_price`) makes the whole distance `NaN` (`none`). -/
def distSq (v : Vendor) (c : Centroid) : Option ℚ :=
  match v.unit_price, c.unit_price with
  | some a, some b =>
      some ((v.total - c.total) ^ 2 + (a - b) ^ 2 + (v.count - c.count) ^ 2)
  | _, _ => none

/-- The `dist < minDist` test of part_004 line 147. `minDist` starts at
`Infinity` (modelled by `none` in the second operand); any numeric distance is
below `Infinity`, and every comparison against a `NaN` distance is false. -/
def jsDistLt (d m : Option ℚ) : Bool :=
  match d, m with
  | some _, none => true
  | some dv, some mv => decide (dv < mv)
  | none, _ => false

/-- The `centroids.forEach` minimum search of part_004 lines 139-151:
`i` is the index of the next centroid, `m` the current `minDist`
(`none` = `Infinity`), `best` the current `clusterIdx`. -/
def bestIdx (v : Vendor) : List Centroid → Nat → Option ℚ → Nat → Nat
  | [], _, _, best => best
  | c :: cs, i, m, best =>
      if jsDistLt (distSq v c) m then bestIdx v cs (i + 1) (distSq v c) i
      else bestIdx v cs (i + 1) m best

/-- Index of the centroid a vendor is assigned to: `minDist = Infinity`,
`clusterIdx = 0` initially (part_004 lines 136-137). -/
def assignIdx (cs : List Centroid) (v : Vendor) : Nat :=
  bestIdx v cs 0 none 0

/-- Vendor tagged with its cluster, as pushed by
`clusters[clusterIdx].push({...vendor, cluster_id: clusterIdx})` (line 153). -/
structure AssignedVendor where
  vendor : Vendor
  cluster_id : Nat
deriving DecidableEq, Repr

/-- The `assignToClusters` closure (part_004 lines 132-157): `k` empty
buckets; each vendor is pushed, in input order, into the bucket of its
nearest centroid. Bucket `j` therefore holds exactly the vendors with
`assignIdx = j`, in input order. (The source indexes `clusters[clusterIdx]`,
well-defined because `clusterIdx < centroids.length ≤ k` in every run.) -/
def assignToClusters (k : Nat) (cs : List Centroid) (vs : List Vendor) :
    List (List AssignedVendor) :=
  (List.range k).map fun j =>
    (vs.filter fun v => assignIdx cs v = j).map fun v => ⟨v, j⟩

/-- Component-wise mean of a cluster (part_004 lines 164-168). Only applied to
non-empty clusters; a `NaN` member `unit_price` propagates into the mean. -/
def meanOf (cl : List AssignedVendor) : Centroid :=
  { total := (cl.map fun a => a.vendor.total).sum / cl.length
    unit_price :=
      ((cl.map fun a => a.vendor.unit_price).foldl
        (fun acc x =>
          match acc, x with
          | some a, some b => some (a + b)
          | _, _ => none) (some 0)).map fun s => s / cl.length
    count := (cl.map fun a => a.vendor.count).sum / cl.length }

/-- The `clusters.map((cluster, idx) => ...)` body of `updateCentroids`
(part_004 lines 160-170), with the running index made explicit: an empty
cluster keeps `centroids[idx]`, a non-empty one gets the component-wise mean. -/
def updateCentroidsAux (cs : List Centroid) : Nat → List (List AssignedVendor) → List Centroid
  | _, [] => []
  | i, cl :: rest =>
      (if cl.isEmpty then cs.getD i defaultCentroid else meanOf cl) ::
        updateCentroidsAux cs (i + 1) rest

def updateCentroids (cs : List Centroid) (clusters : List (List AssignedVendor)) :
    List Centroid :=
  updateCentroidsAux cs 0 clusters

/-- One iteration of the `for` loop (part_004 lines 176-180): assign, then
recompute centroids. -/
def stepCentroids (vs : List Vendor) (k : Nat) (cs : List Centroid) : List Centroid :=
  updateCentroids cs (assignToClusters k cs vs)

def MAX_ITERATIONS : Nat := 10

/-- Centroids after `n` loop iterations. -/
def finalCentroids (vs : List Vendor) (k : Nat) (cs : List Centroid) (n : Nat) :
    List Centroid :=
  (stepCentroids vs k)^[n] cs

/-- The `clusters` variable left by the loop: the assignment computed in the
last iteration, i.e. against the centroids after `MAX_ITERATIONS - 1` updates. -/
def memberBuckets (vs : List Vendor) (k : Nat) (cs : List Centroid) :
    List (List AssignedVendor) :=
  assignToClusters k (finalCentroids vs k cs (MAX_ITERATIONS - 1)) vs

/-- Initial centroids (part_004 lines 116-129): the `while` loop draws random
distinct indices until `min k vendors.length` centroids are collected; the
draw sequence is the `pick` parameter of the model. -/
def initCentroids (vs : List Vendor) (pick : List Nat) : List Centroid :=
  pick.map fun i => toCentroid (vs.getD i { total := 0, unit_price := none, count := 0 })

structure ClusterCenter where
  cluster_id : Nat
  center : Centroid
deriving DecidableEq, Repr

structure ClusterStat where
  cluster_id : Nat
  size : Nat
  percentage : Int
deriving DecidableEq, Repr

/-- The `centroids.map((center, idx) => ({cluster_id: idx, center}))` of
part_004 lines 184-187, with the running index explicit. -/
def centersFrom : Nat → List Centroid → List ClusterCenter
  | _, [] => []
  | i, c :: rest => ⟨i, c⟩ :: centersFrom (i + 1) rest

/-- The per-cluster statistics of part_004 lines 188-228, restricted to the
fields referenced by the verified properties (`cluster_id`, `size`,
`percentage`); the derived feature means and characteristic strings are not
consumed by any claim. -/
def statsFrom (total : ℚ) : Nat → List (List AssignedVendor) → List ClusterStat
  | _, [] => []
  | i, cl :: rest =>
      ⟨i, cl.length, jsRound ((cl.length : ℚ) / total * 100)⟩ :: statsFrom total (i + 1) rest

structure SegResult where
  clusters : List ClusterCenter
  cluster_stats : List ClusterStat
deriving DecidableEq, Repr

/-- The `performSegmentation` function (part_004 lines 104-232). An empty
input returns the empty result before any computation; otherwise features are
extracted, `k` centroids are initialized from the random draw `pick`, the
k-means loop runs `MAX_ITERATIONS` times, and the result packages the final
centroids and the per-cluster statistics of the last assignment. -/
def performSegmentation (data : List VendorData) (k : Nat) (pick : List Nat) : SegResult :=
  if data.isEmpty then { clusters := [], cluster_stats := [] }
  else
    let vendors := data.map extractVendor
    let cs0 := initCentroids vendors pick
    { clusters := centersFrom 0 (finalCentroids vendors k cs0 MAX_ITERATIONS)
      cluster_stats := statsFrom (vendors.length : ℚ) 0 (memberBuckets vendors k cs0) }

/-- The client trend classification of part_003 lines 348-359 (`fetchData`):
with at least two points, compare the raw first and last values of the sorted
series; fewer than two points leave `trendAnalysis` unset (`none`). -/
def trendOf (values : List ℚ) : Option String :=
  if 2 ≤ values.length then
    let firstValue := values.getD 0 0
    let lastValue := values.getD (values.length - 1) 0
    some (if firstValue < lastValue then "increasing"
          else if lastValue < firstValue then "decreasing"
          else "stable")
  else none

/-- Modelled from the spec wording of claim C5 for comparison only: the
ordinary least-squares slope of the values against the indices 0, 1, ... . -/
def lsSlope (values : List ℚ) : ℚ :=
  let n : ℚ := values.length
  let xs : List ℚ := (List.range values.length).map fun i => (i : ℚ)
  let xbar := xs.sum / n
  let ybar := values.sum / n
  let num := ((xs.zip values).map fun p => (p.1 - xbar) * (p.2 - ybar)).sum
  let den := (xs.map fun x => (x - xbar) ^ 2).sum
  num / den

/-- An outlier result element after the `.map` of OutlierDetectionCard.jsx
lines 77-85, restricted to the field the sort reads (`outlier_score`); the
`oid` component records the element identity for the stability statement. -/
structure OutRec where
  oid : Nat
  outlier_score : ℚ
deriving DecidableEq, Repr

/-- Stable descending insertion: a new element goes after every existing
element of greater-or-equal score. This is the unique result of any stable
sort under the comparator `(a, b) => b.outlier_score - a.outlier_score` of
OutlierDetectionCard.jsx line 86; the ECMAScript specification requires
`Array.prototype.sort` to be such a stable sort. -/
def insertDesc (x : OutRec) : List OutRec → List OutRec
  | [] => [x]
  | y :: l => if x.outlier_score ≤ y.outlier_score then y :: insertDesc x l else x :: y :: l

def sortOutliers (l : List OutRec) : List OutRec :=
  l.foldl (fun acc x => insertDesc x acc) []

/-- The `.sort(...).slice(0, 5)` tail of the pipeline (lines 86-87). -/
def topOutliers (l : List OutRec) : List OutRec :=
  (sortOutliers l).take 5

/-- Modelled from the spec: the Result Cache entry of section 3
(`{key, value, computed_at, data_version}`, the timestamp is not consumed by
any property). The cache implementation lives in the backend, which is not
under src/. -/
structure CacheEntry (V : Type) where
  value : V
  data_version : Nat
deriving DecidableEq, Repr

/-- Modelled from the spec: cache state as a map from keys to entries. -/
structure CacheState (K V : Type) where
  entries : K → Option (CacheEntry V)

/-- Modelled from the spec (section 4.6): `get_or_compute(key, data_version,
compute_fn, bypass)`. On `bypass = true` always recompute and overwrite; on
`bypass = false` return the stored value only if its `data_version` matches,
otherwise recompute and store. The third component of the result records
whether `compute_fn` was invoked during the call. -/
def get_or_compute [DecidableEq K] (st : CacheState K V) (key : K) (data_version : Nat)
    (compute_fn : Unit → V) (bypass : Bool) : V × CacheState K V × Bool :=
  if bypass then
    let v := compute_fn ()
    (v, ⟨fun k => if k = key then some ⟨v, data_version⟩ else st.entries k⟩, true)
  else
    match st.entries key with
    | some e =>
        if e.data_version = data_version then (e.value, st, false)
        else
          let v := compute_fn ()
          (v, ⟨fun k => if k = key then some ⟨v, data_version⟩ else st.entries k⟩, true)
    | none =>
        let v := compute_fn ()
        (v, ⟨fun k => if k = key then some ⟨v, data_version⟩ else st.entries k⟩, true)

/-- Modelled from the spec (section 4.3): the numeric values of field `f`
over the records, missing values excluded (not zero-filled). A record is a
list of optional field values, a field is a position. -/
def fieldValues (records : List (List (Option ℚ))) (f : Nat) : List ℚ :=
  records.filterMap fun r => r.getD f none

def popMean (vs : List ℚ) : ℚ := vs.sum / vs.length

def popVar (vs : List ℚ) : ℚ :=
  ((vs.map fun v => (v - popMean vs) ^ 2).sum) / vs.length

/-- Modelled from the spec (section 4.3): the squared z-score with the
`stddev = 0 ⇒ z-score 0` guard. The spec compares `|z| > threshold` with
`z = (value - mean)/stddev`; since `stddev = 0` exactly when the variance is
0 and `|z| > t ↔ z² > t²` for `t ≥ 0`, the model works with squares to stay
inside the rationals. -/
def zscoreSq (v mean variance : ℚ) : ℚ :=
  if variance = 0 then 0 else (v - mean) ^ 2 / variance

/-- Modelled from the spec (section 4.3): the per-field squared z-scores of a
record over the requested fields, with zero-variance fields excluded from
flagging and missing values excluded from the statistic. -/
def zscoresSqOf (records : List (List (Option ℚ))) (fields : List Nat)
    (r : List (Option ℚ)) : List ℚ :=
  fields.filterMap fun f =>
    let vs := fieldValues records f
    if popVar vs = 0 then none
    else (r.getD f none).map fun v => zscoreSq v (popMean vs) (popVar vs)

/-- Modelled from the spec (section 4.3): a record is an outlier when some
requested field's |z-score| exceeds the threshold. -/
def isOutlier (records : List (List (Option ℚ))) (fields : List Nat) (threshold : ℚ)
    (r : List (Option ℚ)) : Bool :=
  (zscoresSqOf records fields r).any fun z => decide (threshold ^ 2 < z)

/-- Modelled from the spec (section 4.3): `detect_outliers` returns the
flagged records (here with their insertion index). -/
def detect_outliers (records : List (List (Option ℚ))) (fields : List Nat)
    (threshold : ℚ) : List (Nat × List (Option ℚ)) :=
  (List.range records.length).filterMap fun i =>
    let r := records.getD i []
    if isOutlier records fields threshold r then some (i, r) else none

/-- A vendor aggregate as consumed by VendorChart.jsx (`_id`, `count`,
`total_amount`). -/
structure VendorAgg where
  vid : String
  count : ℚ
  total_amount : ℚ
deriving DecidableEq, Repr

/-- The `othersAggregate` object of VendorChart.jsx lines 29-33: sums of
`count` and `total_amount` over the vendors beyond the top five. -/
def othersAggregate (others : List VendorAgg) : VendorAgg :=
  { vid := "Others"
    count := (others.map fun v => v.count).sum
    total_amount := (others.map fun v => v.total_amount).sum }

/-- The `prepareChartData` function of VendorChart.jsx lines 20-68: `null`
(`none`) on empty input; otherwise the first five vendors plus an aggregate of
the rest (when more than five), projected to chart labels and values. -/
def prepareChartData (data : List VendorAgg) : Option (List String × List ℚ) :=
  if data.isEmpty then none
  else
    let topVendors :=
      if 5 < data.length then data.take 5 ++ [othersAggregate (data.drop 5)]
      else data
    some (topVendors.map fun v => v.vid, topVendors.map fun v => v.total_amount)

/-! Helper lemmas. -/

theorem max_one_ne_zero (x : ℚ) : max 1 x ≠ 0 := by
  intro h
  have h1 : (1 : ℚ) ≤ max 1 x := le_max_left 1 x
  rw [h] at h1
  norm_num at h1

/-! Claim theorems. -/

/-- C10 counterexample: the claim states that a vendor with a missing
`transactionCount` gets `unit_price` equal to its `totalAmount`; in the code
`Math.max(1, undefined)` is `NaN`, so the quotient is `NaN` (`none`), not the
`totalAmount`. -/
theorem unitPrice_missing_count_cex :
    unitPrice ⟨some 100, none⟩ = none ∧
      unitPrice ⟨some 100, none⟩ ≠ (⟨some 100, none⟩ : VendorData).totalAmount := by
  constructor
  · rfl
  · intro h
    simp [unitPrice, jsMax1, jsDiv] at h

/-- C10 amended: for a vendor with numeric `totalAmount` and
`transactionCount`, `unit_price = totalAmount / max(1, transactionCount)`, the
divisor is never zero, and `transactionCount = 0` yields `unit_price =
totalAmount`; a missing `transactionCount` instead yields `NaN` (`none`). -/
theorem unitPrice_total_div_max (t c : ℚ) :
    unitPrice ⟨some t, some c⟩ = some (t / max 1 c) ∧
      max 1 c ≠ (0 : ℚ) ∧
      unitPrice ⟨some t, some 0⟩ = some t ∧
      unitPrice ⟨some t, none⟩ = none := by
  refine ⟨?_, max_one_ne_zero c, ?_, rfl⟩
  · simp [unitPrice, jsMax1, jsDiv, max_one_ne_zero c]
  · simp [unitPrice, jsMax1, jsDiv]

/-- C2 (code bug): the assignment step computes the Euclidean distance on raw
feature values, although the adjacent source comment and the spec say the
values are normalized. Uniformly rescaling the `total` feature by 10 across
the vendor and both centroids changes which centroid is nearest (index 0
before rescaling, index 1 after), which normalization would prevent. -/
theorem assignIdx_not_scale_invariant :
    assignIdx [⟨1, some 0, 0⟩, ⟨0, some 3, 0⟩] ⟨0, some 0, 0⟩ = 0 ∧
      assignIdx [⟨10, some 0, 0⟩, ⟨0, some 3, 0⟩] ⟨0, some 0, 0⟩ = 1 := by
  constructor <;> norm_num [assignIdx, bestIdx, distSq, jsDistLt]

/-- C5 counterexample: on the series `[0, 100, 0, 1]` the code classifies the
trend as `increasing` (it only compares the raw first and last values), while
the least-squares slope of the series is negative, so the classification is
not the sign of the fitted slope as the claim states. -/
theorem trendOf_cex :
    trendOf [0, 100, 0, 1] = some "increasing" ∧ lsSlope [0, 100, 0, 1] < 0 := by
  constructor
  · norm_num [trendOf]
  · norm_num [lsSlope, List.range_succ]

/-- C5 amended: the trend classification compares the raw first and last
values of the series with strict inequalities and no epsilon: `increasing`
iff the last value strictly exceeds the first, `decreasing` iff it is
strictly below, and `stable` only on exact equality. -/
theorem trendOf_endpoints (vs : List ℚ) (h : 2 ≤ vs.length) :
    (trendOf vs = some "increasing" ↔ vs.getD 0 0 < vs.getD (vs.length - 1) 0) ∧
      (trendOf vs = some "decreasing" ↔ vs.getD (vs.length - 1) 0 < vs.getD 0 0) ∧
      (trendOf vs = some "stable" ↔ vs.getD 0 0 = vs.getD (vs.length - 1) 0) := by
  have ht : trendOf vs =
      some (if vs.getD 0 0 < vs.getD (vs.length - 1) 0 then "increasing"
            else if vs.getD (vs.length - 1) 0 < vs.getD 0 0 then "decreasing"
            else "stable") := by
    unfold trendOf
    rw [if_pos h]
  rw [ht]
  rcases lt_trichotomy (vs.getD 0 0) (vs.getD (vs.length - 1) 0) with hlt | heq | hgt
  · rw [if_pos hlt]
    refine ⟨⟨fun _ => hlt, fun _ => rfl⟩, ⟨fun hs => ?_, fun hs => absurd (hs.trans hlt) (lt_irrefl _)⟩,
      ⟨fun hs => ?_, fun hs => absurd (hs ▸ hlt) (lt_irrefl _)⟩⟩
    · simp at hs
    · simp at hs
  · rw [if_neg (by rw [heq]; exact lt_irrefl _), if_neg (by rw [heq]; exact lt_irrefl _)]
    refine ⟨⟨fun hs => ?_, fun hlt => absurd (heq ▸ hlt) (lt_irrefl _)⟩,
      ⟨fun hs => ?_, fun hlt => absurd (heq ▸ hlt) (lt_irrefl _)⟩, ⟨fun _ => heq, fun _ => rfl⟩⟩
    · simp at hs
    · simp at hs
  · rw [if_neg (not_lt.mpr hgt.le), if_pos hgt]
    refine ⟨⟨fun hs => ?_, fun hlt => absurd (hlt.trans hgt) (lt_irrefl _)⟩,
      ⟨fun _ => hgt, fun _ => rfl⟩, ⟨fun hs => ?_, fun hs => absurd (hs ▸ hgt) (lt_irrefl _)⟩⟩
    · simp at hs
    · simp at hs

/-- Witness for C5: on the strictly increasing series `[1, 2]` the
characterization evaluates as expected. -/
theorem trendOf_endpoints_witness :
    (trendOf [1, 2] = some "increasing" ↔
        ([1, 2] : List ℚ).getD 0 0 < ([1, 2] : List ℚ).getD (([1, 2] : List ℚ).length - 1) 0) ∧
      (trendOf [1, 2] = some "decreasing" ↔
        ([1, 2] : List ℚ).getD (([1, 2] : List ℚ).length - 1) 0 < ([1, 2] : List ℚ).getD 0 0) ∧
      (trendOf [1, 2] = some "stable" ↔
        ([1, 2] : List ℚ).getD 0 0 = ([1, 2] : List ℚ).getD (([1, 2] : List ℚ).length - 1) 0) :=
  trendOf_endpoints [1, 2] (by decide)

/-- C8: on an empty input snapshot every modelled operation returns its
empty or neutral result rather than an error: clustering returns empty
centers and statistics for every `k` and every random draw, the vendor chart
returns its `null` sentinel, the outlier sort returns the empty list, and
outlier detection flags nothing. -/
theorem empty_input_neutral :
    (∀ k pick, performSegmentation [] k pick = { clusters := [], cluster_stats := [] }) ∧
      prepareChartData [] = none ∧
      sortOutliers [] = [] ∧
      (∀ fields t, detect_outliers [] fields t = []) := by
  exact ⟨fun k pick => rfl, rfl, rfl, fun fields t => rfl⟩

/-- C9: when more than five vendors are supplied, the chart aggregates the
tail into an `Others` entry whose totals are sums, so the displayed values
sum to the total amount over the whole input. -/
theorem prepareChartData_sum_preserved (data : List VendorAgg) (h : 5 < data.length) :
    ∃ labels values, prepareChartData data = some (labels, values) ∧
      values.sum = (data.map fun v => v.total_amount).sum := by
  have hne : data.isEmpty = false := by
    cases data with
    | nil => simp at h
    | cons a l => rfl
  refine ⟨(data.take 5 ++ [othersAggregate (data.drop 5)]).map fun v => v.vid,
    (data.take 5 ++ [othersAggregate (data.drop 5)]).map fun v => v.total_amount, ?_, ?_⟩
  · unfold prepareChartData
    rw [hne]
    simp only [Bool.false_eq_true, if_false, if_pos h]
  · rw [List.map_append, List.sum_append]
    simp only [List.map_cons, List.map_nil, List.sum_cons, List.sum_nil, othersAggregate,
      add_zero]
    rw [← List.sum_append, ← List.map_append, List.take_append_drop]

/-- Witness for C9: seven concrete vendors; the displayed values sum to the
input total. -/
theorem prepareChartData_sum_preserved_witness :
    5 < ([⟨"a", 1, 10⟩, ⟨"b", 1, 20⟩, ⟨"c", 1, 30⟩, ⟨"d", 1, 40⟩, ⟨"e", 1, 50⟩,
        ⟨"f", 1, 60⟩, ⟨"g", 1, 70⟩] : List VendorAgg).length ∧
      ∃ labels values,
        prepareChartData [⟨"a", 1, 10⟩, ⟨"b", 1, 20⟩, ⟨"c", 1, 30⟩, ⟨"d", 1, 40⟩,
            ⟨"e", 1, 50⟩, ⟨"f", 1, 60⟩, ⟨"g", 1, 70⟩] = some (labels, values) ∧
          values.sum =
            (([⟨"a", 1, 10⟩, ⟨"b", 1, 20⟩, ⟨"c", 1, 30⟩, ⟨"d", 1, 40⟩, ⟨"e", 1, 50⟩,
                ⟨"f", 1, 60⟩, ⟨"g", 1, 70⟩] : List VendorAgg).map fun v => v.total_amount).sum :=
  ⟨by decide, prepareChartData_sum_preserved _ (by decide)⟩

/-- C4: starting from a cache with no entry for the key, two `get_or_compute`
calls with identical key and `data_version` and `bypass = false` invoke
`compute_fn` exactly once (the first call computes, the second returns the
stored value); moreover a stored value is returned (without recomputation)
only when its `data_version` matches the current version, and a mismatched
version always triggers recomputation. -/
theorem get_or_compute_once (st : CacheState Nat Nat) (key ver : Nat) (fn : Unit → Nat)
    (hmiss : st.entries key = none) :
    ((get_or_compute st key ver fn false).2.2 = true ∧
      (get_or_compute (get_or_compute st key ver fn false).2.1 key ver fn false).2.2 = false ∧
      (get_or_compute (get_or_compute st key ver fn false).2.1 key ver fn false).1 =
        (get_or_compute st key ver fn false).1) ∧
    (∀ st2 : CacheState Nat Nat, ∀ e, st2.entries key = some e →
      ((get_or_compute st2 key ver fn false).2.2 = decide (e.data_version ≠ ver)) ∧
      (e.data_version = ver → get_or_compute st2 key ver fn false = (e.value, st2, false))) := by
  constructor
  · have h1 : get_or_compute st key ver fn false =
        (fn (), ⟨fun k => if k = key then some ⟨fn (), ver⟩ else st.entries k⟩, true) := by
      unfold get_or_compute
      rw [if_neg (by simp), hmiss]
    rw [h1]
    have h2 : get_or_compute
        (⟨fun k => if k = key then some ⟨fn (), ver⟩ else st.entries k⟩ : CacheState Nat Nat)
        key ver fn false =
        ((⟨fn (), ver⟩ : CacheEntry Nat).value,
          ⟨fun k => if k = key then some ⟨fn (), ver⟩ else st.entries k⟩, false) := by
      unfold get_or_compute
      rw [if_neg (by simp)]
      simp
    rw [h2]
    exact ⟨rfl, rfl, rfl⟩
  · intro st2 e he
    have h3 : get_or_compute st2 key ver fn false =
        (if e.data_version = ver then (e.value, st2, false)
         else (fn (), ⟨fun k => if k = key then some ⟨fn (), ver⟩ else st2.entries k⟩, true)) := by
      unfold get_or_compute
      rw [if_neg (by simp), he]
    constructor
    · rw [h3]
      by_cases hv : e.data_version = ver
      · rw [if_pos hv]
        simp [hv]
      · rw [if_neg hv]
        simp [hv]
    · intro hv
      rw [h3, if_pos hv]

/-- Witness for C4: an initially empty cache at key 0, version 1, with a
constant compute function. -/
theorem get_or_compute_once_witness :
    (⟨fun _ => none⟩ : CacheState Nat Nat).entries 0 = none ∧
      (((get_or_compute (⟨fun _ => none⟩ : CacheState Nat Nat) 0 1 (fun _ => 42) false).2.2 = true ∧
        (get_or_compute (get_or_compute (⟨fun _ => none⟩ : CacheState Nat Nat) 0 1
            (fun _ => 42) false).2.1 0 1 (fun _ => 42) false).2.2 = false ∧
        (get_or_compute (get_or_compute (⟨fun _ => none⟩ : CacheState Nat Nat) 0 1
            (fun _ => 42) false).2.1 0 1 (fun _ => 42) false).1 =
          (get_or_compute (⟨fun _ => none⟩ : CacheState Nat Nat) 0 1 (fun _ => 42) false).1) ∧
      (∀ st2 : CacheState Nat Nat, ∀ e, st2.entries 0 = some e →
        ((get_or_compute st2 0 1 (fun _ => 42) false).2.2 = decide (e.data_version ≠ 1)) ∧
        (e.data_version = 1 →
          get_or_compute st2 0 1 (fun _ => 42) false = (e.value, st2, false)))) :=
  ⟨rfl, get_or_compute_once ⟨fun _ => none⟩ 0 1 (fun _ => 42) rfl⟩

/-- Sum of a list all of whose members equal a constant. -/
theorem list_sum_const {c : ℚ} : ∀ {vs : List ℚ}, (∀ v ∈ vs, v = c) →
    vs.sum = vs.length * c := by
  intro vs
  induction vs with
  | nil => intro _; simp
  | cons v t ih =>
      intro h
      have hv : v = c := h v (List.mem_cons_self v t)
      have ht : t.sum = t.length * c := ih fun x hx => h x (List.mem_cons_of_mem v hx)
      simp only [List.sum_cons, List.length_cons, hv, ht]
      push_cast
      ring

/-- Population variance of a constant list is zero. -/
theorem popVar_const {c : ℚ} {vs : List ℚ} (h : ∀ v ∈ vs, v = c) : popVar vs = 0 := by
  rcases vs with _ | ⟨v, t⟩
  · simp [popVar]
  · have hlen : ((v :: t).length : ℚ) ≠ 0 := by
      rw [List.length_cons]
      push_cast
      positivity
    have hmean : popMean (v :: t) = c := by
      unfold popMean
      rw [list_sum_const h]
      exact mul_div_cancel_left₀ c hlen
    unfold popVar
    rw [hmean]
    have hz : ∀ x ∈ (v :: t).map fun w => (w - c) ^ 2, x = 0 := by
      intro x hx
      rcases List.mem_map.mp hx with ⟨w, hw, rfl⟩
      rw [h w hw]
      ring
    rw [List.sum_eq_zero hz, zero_div]

/-- C7: when the values of a requested field are all identical, the
population variance (hence the standard deviation) of that field is zero, the
z-score of every value against that field is defined to be zero (never a
division by zero), the field is excluded from flagging, and the detector
flags no record via that field. -/
theorem detect_outliers_constant_field (records : List (List (Option ℚ))) (t c : ℚ)
    (f : Nat) (hconst : ∀ v ∈ fieldValues records f, v = c) :
    popVar (fieldValues records f) = 0 ∧
      (∀ v m : ℚ, zscoreSq v m (popVar (fieldValues records f)) = 0) ∧
      (∀ r, zscoresSqOf records [f] r = []) ∧
      detect_outliers records [f] t = [] := by
  have hpv : popVar (fieldValues records f) = 0 := popVar_const hconst
  have hz : ∀ r, zscoresSqOf records [f] r = [] := by
    intro r
    simp [zscoresSqOf, hpv]
  refine ⟨hpv, ?_, hz, ?_⟩
  · intro v m
    rw [hpv]
    simp [zscoreSq]
  · simp [detect_outliers, isOutlier, hz]

/-- Witness for C7: two records whose only field is constantly 5 produce no
outlier flags at threshold 2. -/
theorem detect_outliers_constant_field_witness :
    (∀ v ∈ fieldValues [[some 5], [some 5]] 0, v = (5 : ℚ)) ∧
      (popVar (fieldValues [[some 5], [some 5]] 0) = 0 ∧
        (∀ v m : ℚ, zscoreSq v m (popVar (fieldValues [[some 5], [some 5]] 0)) = 0) ∧
        (∀ r, zscoresSqOf [[some 5], [some 5]] [0] r = []) ∧
        detect_outliers [[some 5], [some 5]] [0] 2 = []) :=
  have hconst : ∀ v ∈ fieldValues [[some 5], [some 5]] 0, v = (5 : ℚ) := by
    intro v hv
    simp [fieldValues] at hv
    exact hv
  ⟨hconst, detect_outliers_constant_field [[some 5], [some 5]] 2 5 0 hconst⟩

/-- Insertion produces a permutation of consing. -/
theorem insertDesc_perm (x : OutRec) : ∀ l : List OutRec, (insertDesc x l).Perm (x :: l) := by
  intro l
  induction l with
  | nil => exact List.Perm.refl _
  | cons y t ih =>
      unfold insertDesc
      split
      · exact ((ih.cons y).trans (List.Perm.swap x y t))
      · exact List.Perm.refl _

/-- Insertion preserves the descending-by-score pairwise order. -/
theorem insertDesc_sorted (x : OutRec) :
    ∀ {l : List OutRec}, l.Pairwise (fun a b => b.outlier_score ≤ a.outlier_score) →
      (insertDesc x l).Pairwise (fun a b => b.outlier_score ≤ a.outlier_score) := by
  intro l
  induction l with
  | nil => intro _; simp [insertDesc]
  | cons y t ih =>
      intro hs
      rcases List.pairwise_cons.mp hs with ⟨hy, ht⟩
      unfold insertDesc
      split
      case isTrue hxy =>
        refine List.pairwise_cons.mpr ⟨?_, ih ht⟩
        intro b hb
        have hb2 := (insertDesc_perm x t).mem_iff.mp hb
        rcases List.mem_cons.mp hb2 with rfl | hbt
        · exact hxy
        · exact hy b hbt
      case isFalse hxy =>
        push_neg at hxy
        refine List.pairwise_cons.mpr ⟨?_, hs⟩
        intro b hb
        rcases List.mem_cons.mp hb with rfl | hbt
        · exact hxy.le
        · exact (hy b hbt).trans hxy.le

/-- In a sorted accumulator, the inserted element lands after every element
of equal score: the filter at any fixed score gains the new element at the
end when scores match and is unchanged otherwise. -/
theorem insertDesc_filter (x : OutRec) (s : ℚ) :
    ∀ {l : List OutRec}, l.Pairwise (fun a b => b.outlier_score ≤ a.outlier_score) →
      (insertDesc x l).filter (fun r => decide (r.outlier_score = s)) =
        if x.outlier_score = s then
          l.filter (fun r => decide (r.outlier_score = s)) ++ [x]
        else l.filter (fun r => decide (r.outlier_score = s)) := by
  intro l
  induction l with
  | nil =>
      intro _
      by_cases hx : x.outlier_score = s <;> simp [insertDesc, hx]
  | cons y t ih =>
      intro hs
      rcases List.pairwise_cons.mp hs with ⟨hy, ht⟩
      unfold insertDesc
      split
      case isTrue hxy =>
        rw [List.filter_cons, List.filter_cons]
        by_cases hys : y.outlier_score = s
        · rw [ih ht]
          by_cases hx : x.outlier_score = s <;> simp [hx, hys]
        · rw [ih ht]
          by_cases hx : x.outlier_score = s <;> simp [hx, hys]
      case isFalse hxy =>
        push_neg at hxy
        by_cases hx : x.outlier_score = s
        · rw [if_pos hx]
          have hnone : (y :: t).filter (fun r => decide (r.outlier_score = s)) = [] := by
            rw [List.filter_eq_nil_iff]
            intro b hb
            simp only [decide_eq_true_eq]
            intro hbs
            have hble : b.outlier_score ≤ y.outlier_score := by
              rcases List.mem_cons.mp hb with rfl | hbt
              · exact le_refl _
              · exact hy b hbt
            rw [hbs, ← hx] at hble
            exact absurd hxy (not_lt.mpr hble)
          rw [hnone, List.filter_cons, List.nil_append]
          simp [hx, hnone]
        · rw [if_neg hx, List.filter_cons]
          simp [hx]

/-- The folded insertion sort is sorted, permutes its input, and keeps every
score class in input order relative to the accumulator. -/
theorem sortAux_props :
    ∀ (l acc : List OutRec),
      acc.Pairwise (fun a b => b.outlier_score ≤ a.outlier_score) →
      (l.foldl (fun acc x => insertDesc x acc) acc).Pairwise
          (fun a b => b.outlier_score ≤ a.outlier_score) ∧
        (l.foldl (fun acc x => insertDesc x acc) acc).Perm (acc ++ l) ∧
        ∀ s : ℚ, (l.foldl (fun acc x => insertDesc x acc) acc).filter
            (fun r => decide (r.outlier_score = s)) =
          acc.filter (fun r => decide (r.outlier_score = s)) ++
            l.filter (fun r => decide (r.outlier_score = s)) := by
  intro l
  induction l with
  | nil =>
      intro acc hacc
      exact ⟨hacc, by simp, fun s => by simp⟩
  | cons x t ih =>
      intro acc hacc
      have hins := insertDesc_sorted x hacc
      rcases ih (insertDesc x acc) hins with ⟨hsort, hperm, hfilter⟩
      refine ⟨hsort, ?_, ?_⟩
      · exact hperm.trans (((insertDesc_perm x acc).append_right t).trans List.perm_middle.symm)
      · intro s
        rw [List.foldl_cons, hfilter s, insertDesc_filter x s hacc, List.filter_cons]
        by_cases hx : x.outlier_score = s
        · simp [hx]
        · simp [hx]

/-- C6: the outlier result list produced by the sort step is ordered by
non-increasing `outlier_score`, is a permutation of its input, and preserves,
for every score value, the input order of equally scored elements (the
ECMAScript stable-sort contract); the subsequent `slice(0, 5)` prefix is
likewise sorted. -/
theorem sortOutliers_sorted_stable (l : List OutRec) :
    (sortOutliers l).Pairwise (fun a b => b.outlier_score ≤ a.outlier_score) ∧
      (sortOutliers l).Perm l ∧
      (∀ s : ℚ, (sortOutliers l).filter (fun r => decide (r.outlier_score = s)) =
        l.filter (fun r => decide (r.outlier_score = s))) ∧
      (topOutliers l).Pairwise (fun a b => b.outlier_score ≤ a.outlier_score) := by
  rcases sortAux_props l [] (List.Pairwise.nil) with ⟨hsort, hperm, hfilter⟩
  refine ⟨hsort, by simpa using hperm, fun s => by simpa using hfilter s, ?_⟩
  exact hsort.sublist (List.take_sublist 5 (sortOutliers l))

/-- The minimum search never returns an index beyond the bounds that cover
its starting candidate and the remaining centroids. -/
theorem bestIdx_lt (v : Vendor) :
    ∀ (cs : List Centroid) (i : Nat) (m : Option ℚ) (best n : Nat),
      best < n → i + cs.length ≤ n → bestIdx v cs i m best < n := by
  intro cs
  induction cs with
  | nil =>
      intro i m best n hb _
      simpa [bestIdx] using hb
  | cons c t ih =>
      intro i m best n hb hi
      rw [List.length_cons] at hi
      unfold bestIdx
      split
      · exact ih (i + 1) (distSq v c) i n (by omega) (by omega)
      · exact ih (i + 1) m best n hb (by omega)

/-- Every vendor is assigned an index below the number of centroids. -/
theorem assignIdx_lt {cs : List Centroid} (hcs : cs ≠ []) (v : Vendor) :
    assignIdx cs v < cs.length := by
  have hpos : 0 < cs.length := List.length_pos.mpr hcs
  exact bestIdx_lt v cs 0 none 0 cs.length hpos (by omega)

/-- Joining a family where one bucket is extended by `v` permutes to `v`
consed onto the join of the plain family. -/
theorem join_map_update {α : Type} (v : α) (g : Nat → List α) (j0 : Nat) :
    ∀ L : List Nat, L.Nodup → j0 ∈ L →
      ((L.map fun j => if j0 = j then v :: g j else g j).join).Perm
        (v :: (L.map g).join) := by
  intro L
  induction L with
  | nil =>
      intro _ hmem
      cases hmem
  | cons a t ih =>
      intro hnd hmem
      rcases List.nodup_cons.mp hnd with ⟨ha, hndt⟩
      by_cases hj : j0 = a
      · subst hj
        have ht : (t.map fun j => if j0 = j then v :: g j else g j) = t.map g := by
          apply List.map_congr_left
          intro b hb
          rw [if_neg fun h : j0 = b => ha (h ▸ hb)]
        simp only [List.map_cons, if_pos rfl, List.join_cons, ht]
        exact List.Perm.refl _
      · have hmem2 : j0 ∈ t := by
          rcases List.mem_cons.mp hmem with h | h
          · exact absurd h hj
          · exact h
        simp only [List.map_cons, if_neg hj, List.join_cons]
        exact (List.Perm.append_left (g a) (ih hndt hmem2)).trans List.perm_middle

/-- Splitting a vendor list by assigned index over the full index range is a
partition: joining the pieces permutes back to the list. -/
theorem partition_perm (cs : List Centroid) (k : Nat) :
    ∀ vs : List Vendor, (∀ v ∈ vs, assignIdx cs v < k) →
      (((List.range k).map fun j => vs.filter fun v => assignIdx cs v = j).join).Perm vs := by
  intro vs
  induction vs with
  | nil =>
      intro _
      simp
  | cons v t ih =>
      intro h
      have hv : assignIdx cs v < k := h v (List.mem_cons_self v t)
      have ht := ih fun x hx => h x (List.mem_cons_of_mem v hx)
      have hfe : (fun j => (v :: t).filter fun v2 => assignIdx cs v2 = j) =
          fun j => if assignIdx cs v = j then
              v :: (t.filter fun v2 => assignIdx cs v2 = j)
            else t.filter fun v2 => assignIdx cs v2 = j := by
        funext j
        rw [List.filter_cons]
        by_cases hc : assignIdx cs v = j
        · simp [hc]
        · simp [hc]
      rw [hfe]
      exact (join_map_update v _ (assignIdx cs v) (List.range k) (List.nodup_range k)
        (List.mem_range.mpr hv)).trans (List.Perm.cons v ht)

/-- Projecting the tagged buckets back to vendors gives the plain partition. -/
theorem buckets_join_vendors (k : Nat) (cs : List Centroid) (vs : List Vendor) :
    ((assignToClusters k cs vs).join.map fun a => a.vendor) =
      ((List.range k).map fun j => vs.filter fun v => assignIdx cs v = j).join := by
  unfold assignToClusters
  rw [List.map_join, List.map_map]
  congr 1
  apply List.map_congr_left
  intro j _
  simp [Function.comp_def, List.map_map]

theorem assignToClusters_length (k : Nat) (cs : List Centroid) (vs : List Vendor) :
    (assignToClusters k cs vs).length = k := by
  simp [assignToClusters]

theorem updateCentroidsAux_length (cs : List Centroid) :
    ∀ (clusters : List (List AssignedVendor)) (i : Nat),
      (updateCentroidsAux cs i clusters).length = clusters.length := by
  intro clusters
  induction clusters with
  | nil => intro i; rfl
  | cons cl rest ih =>
      intro i
      unfold updateCentroidsAux
      rw [List.length_cons, List.length_cons, ih (i + 1)]

theorem stepCentroids_length (vs : List Vendor) (k : Nat) (cs : List Centroid) :
    (stepCentroids vs k cs).length = k := by
  unfold stepCentroids updateCentroids
  rw [updateCentroidsAux_length, assignToClusters_length]

/-- One unfolding of the iteration count. -/
theorem finalCentroids_succ (vs : List Vendor) (k : Nat) (cs : List Centroid) (n : Nat) :
    finalCentroids vs k cs (n + 1) = stepCentroids vs k (finalCentroids vs k cs n) := by
  unfold finalCentroids
  exact Function.iterate_succ_apply' (stepCentroids vs k) n cs

theorem finalCentroids_length (vs : List Vendor) (k : Nat) (cs : List Centroid)
    {n : Nat} (hn : 1 ≤ n) : (finalCentroids vs k cs n).length = k := by
  rcases Nat.exists_eq_add_of_le hn with ⟨m, rfl⟩
  rw [Nat.add_comm, finalCentroids_succ, stepCentroids_length]

theorem centersFrom_length : ∀ (cs : List Centroid) (i : Nat),
    (centersFrom i cs).length = cs.length := by
  intro cs
  induction cs with
  | nil => intro i; rfl
  | cons c rest ih =>
      intro i
      unfold centersFrom
      rw [List.length_cons, List.length_cons, ih (i + 1)]

/-- Reading the bucket of index `j` from the assignment. -/
theorem assignToClusters_getD (k : Nat) (cs : List Centroid) (vs : List Vendor)
    {j : Nat} (hj : j < k) :
    (assignToClusters k cs vs).getD j [] =
      (vs.filter fun v => assignIdx cs v = j).map fun v => (⟨v, j⟩ : AssignedVendor) := by
  unfold assignToClusters
  rw [List.getD_eq_getElem _ _ (by simpa using hj)]
  rw [List.getElem_map, List.getElem_range]

/-- C1: for a non-empty entity list and `1 ≤ k ≤ len(entities)`, the
segmentation returns exactly `k` cluster centers, the last assignment has
exactly `k` member buckets, every entity appears in exactly one member bucket
(the joined buckets are a permutation of the entity list), and every bucket
member carries `cluster_id = j < k` for its bucket `j`. -/
theorem performSegmentation_k_clusters (data : List VendorData) (k : Nat) (pick : List Nat)
    (hk : 1 ≤ k) (hkn : k ≤ data.length) :
    (performSegmentation data k pick).clusters.length = k ∧
      (memberBuckets (data.map extractVendor) k
          (initCentroids (data.map extractVendor) pick)).length = k ∧
      (((memberBuckets (data.map extractVendor) k
            (initCentroids (data.map extractVendor) pick)).join.map fun a => a.vendor).Perm
        (data.map extractVendor)) ∧
      (∀ j, j < k → ∀ a ∈ (memberBuckets (data.map extractVendor) k
          (initCentroids (data.map extractVendor) pick)).getD j [], a.cluster_id = j) := by
  have hne : data.isEmpty = false := by
    cases data with
    | nil => simp at hkn; omega
    | cons d t => rfl
  set vendors := data.map extractVendor with hv
  set cs0 := initCentroids vendors pick with hcs0
  have hps : performSegmentation data k pick =
      { clusters := centersFrom 0 (finalCentroids vendors k cs0 MAX_ITERATIONS)
        cluster_stats := statsFrom (vendors.length : ℚ) 0 (memberBuckets vendors k cs0) } := by
    unfold performSegmentation
    rw [hne]
    rfl
  have hlen9 : (finalCentroids vendors k cs0 (MAX_ITERATIONS - 1)).length = k :=
    finalCentroids_length vendors k cs0 (by norm_num [MAX_ITERATIONS])
  have hne9 : finalCentroids vendors k cs0 (MAX_ITERATIONS - 1) ≠ [] := by
    intro h
    rw [h] at hlen9
    simp at hlen9
    omega
  refine ⟨?_, ?_, ?_, ?_⟩
  · rw [hps]
    simp only
    rw [centersFrom_length, finalCentroids_length vendors k cs0 (by norm_num [MAX_ITERATIONS])]
  · unfold memberBuckets
    exact assignToClusters_length _ _ _
  · unfold memberBuckets
    rw [buckets_join_vendors]
    apply partition_perm
    intro v _
    have hlt := assignIdx_lt hne9 v
    rwa [hlen9] at hlt
  · intro j hj a ha
    unfold memberBuckets at ha
    rw [assignToClusters_getD _ _ _ hj] at ha
    rcases List.mem_map.mp ha with ⟨w, _, rfl⟩
    rfl

/-- Witness for C1: a single vendor, one cluster, deterministic draw. -/
theorem performSegmentation_k_clusters_witness :
    1 ≤ 1 ∧ 1 ≤ ([(⟨some 1, some 1⟩ : VendorData)]).length ∧
      ((performSegmentation [⟨some 1, some 1⟩] 1 [0]).clusters.length = 1 ∧
        (memberBuckets ([(⟨some 1, some 1⟩ : VendorData)].map extractVendor) 1
            (initCentroids ([(⟨some 1, some 1⟩ : VendorData)].map extractVendor) [0])).length = 1 ∧
        (((memberBuckets ([(⟨some 1, some 1⟩ : VendorData)].map extractVendor) 1
              (initCentroids ([(⟨some 1, some 1⟩ : VendorData)].map extractVendor) [0])).join.map
            fun a => a.vendor).Perm
          ([(⟨some 1, some 1⟩ : VendorData)].map extractVendor)) ∧
        (∀ j, j < 1 → ∀ a ∈ (memberBuckets ([(⟨some 1, some 1⟩ : VendorData)].map extractVendor) 1
            (initCentroids ([(⟨some 1, some 1⟩ : VendorData)].map extractVendor) [0])).getD j [],
          a.cluster_id = j)) :=
  ⟨le_refl 1, by simp,
    performSegmentation_k_clusters [⟨some 1, some 1⟩] 1 [0] (le_refl 1) (by simp)⟩

/-- Reading position `j` of the indexed centroid update. -/
theorem updateCentroidsAux_getD (cs : List Centroid) :
    ∀ (clusters : List (List AssignedVendor)) (i j : Nat), j < clusters.length →
      (updateCentroidsAux cs i clusters).getD j defaultCentroid =
        if (clusters.getD j []).isEmpty then cs.getD (i + j) defaultCentroid
        else meanOf (clusters.getD j []) := by
  intro clusters
  induction clusters with
  | nil =>
      intro i j hj
      simp at hj
  | cons cl rest ih =>
      intro i j hj
      cases j with
      | zero =>
          simp [updateCentroidsAux]
      | succ m =>
          rw [List.length_cons] at hj
          unfold updateCentroidsAux
          rw [List.getD_cons_succ, List.getD_cons_succ, ih (i + 1) m (by omega)]
          have harith : i + 1 + m = i + (m + 1) := by omega
          rw [harith]

/-- C3: the update applied at every iteration of the k-means loop keeps the
previous centroid of a cluster with zero assigned entities unchanged and
replaces the centroid of a non-empty cluster by the component-wise mean of
its members; the first conjunct ties this step to the iterated run. -/
theorem stepCentroids_empty_keeps (vs : List Vendor) (k : Nat) (cs : List Centroid)
    (j : Nat) (hj : j < k) :
    (∀ n : Nat, finalCentroids vs k cs (n + 1) = stepCentroids vs k (finalCentroids vs k cs n)) ∧
      ((assignToClusters k cs vs).getD j [] = [] →
        (stepCentroids vs k cs).getD j defaultCentroid = cs.getD j defaultCentroid) ∧
      ((assignToClusters k cs vs).getD j [] ≠ [] →
        (stepCentroids vs k cs).getD j defaultCentroid =
          meanOf ((assignToClusters k cs vs).getD j [])) := by
  have hlt : j < (assignToClusters k cs vs).length := by
    rw [assignToClusters_length]
    exact hj
  have hgd := updateCentroidsAux_getD cs (assignToClusters k cs vs) 0 j hlt
  rw [Nat.zero_add] at hgd
  refine ⟨finalCentroids_succ vs k cs, ?_, ?_⟩
  · intro hemp
    unfold stepCentroids updateCentroids
    rw [hgd, hemp]
    simp
  · intro hne
    unfold stepCentroids updateCentroids
    rw [hgd]
    cases h : (assignToClusters k cs vs).getD j [] with
    | nil => exact absurd h hne
    | cons a t => simp

/-- Witness for C3: one vendor, two centroids; the vendor joins cluster 0,
cluster 1 stays empty and keeps its centroid. -/
theorem stepCentroids_empty_keeps_witness :
    1 < 2 ∧
      ((∀ n : Nat, finalCentroids [⟨0, some 0, 0⟩] 2 [⟨0, some 0, 0⟩, ⟨5, some 5, 5⟩] (n + 1) =
          stepCentroids [⟨0, some 0, 0⟩] 2
            (finalCentroids [⟨0, some 0, 0⟩] 2 [⟨0, some 0, 0⟩, ⟨5, some 5, 5⟩] n)) ∧
        ((assignToClusters 2 [⟨0, some 0, 0⟩, ⟨5, some 5, 5⟩] [⟨0, some 0, 0⟩]).getD 1 [] = [] →
          (stepCentroids [⟨0, some 0, 0⟩] 2 [⟨0, some 0, 0⟩, ⟨5, some 5, 5⟩]).getD 1
              defaultCentroid =
            ([⟨0, some 0, 0⟩, ⟨5, some 5, 5⟩] : List Centroid).getD 1 defaultCentroid) ∧
        ((assignToClusters 2 [⟨0, some 0, 0⟩, ⟨5, some 5, 5⟩] [⟨0, some 0, 0⟩]).getD 1 [] ≠ [] →
          (stepCentroids [⟨0, some 0, 0⟩] 2 [⟨0, some 0, 0⟩, ⟨5, some 5, 5⟩]).getD 1
              defaultCentroid =
            meanOf ((assignToClusters 2 [⟨0, some 0, 0⟩, ⟨5, some 5, 5⟩]
              [⟨0, some 0, 0⟩]).getD 1 []))) :=
  ⟨by omega, stepCentroids_empty_keeps [⟨0, some 0, 0⟩] 2 [⟨0, some 0, 0⟩, ⟨5, some 5, 5⟩] 1
    (by omega)⟩

end Zenalyst
